import Mathlib

set_option maxRecDepth 100000

/-!
Verification of the kival storage engine (a Bitcask-style key-value store in Go).

The development shallowly embeds the converged revision of the three packages:
`record` (binary codec with CRC32-Castagnoli integrity checking), `log`
(append-only segment files with capacity-based rotation and index rebuild) and
`kv` (the store orchestrating Put/Get/Del over the active segment, the sealed
segment map and the in-memory key directory).

Modelling conventions:
 - a byte is a `Nat` (file contents, keys and values are `List Nat`); Go's
   `uint32` arithmetic is `Nat` with an explicit `% 4294967296` wherever the
   32-bit wrap is observable;
 - file I/O always succeeds; `os.File.ReadAt` reads `min (requested, available)`
   bytes and reports `io.EOF` on a short read, which the embedding mirrors;
 - a Go runtime panic (slice bounds out of range) is `Option.none` / a
   dedicated error constructor;
 - Go maps are insertion-ordered association lists (Go's iteration order is
   unspecified; the claims never depend on a particular order).
-/

/-- Structural decidable equality for `Except`, so that concrete runs of the
embedded operations can be checked by `decide`. -/
instance {ε α : Type} [DecidableEq ε] [DecidableEq α] : DecidableEq (Except ε α) := fun a b =>
  match a, b with
  | .ok x, .ok y =>
    if h : x = y then isTrue (h ▸ rfl) else isFalse (fun hh => by cases hh; exact h rfl)
  | .error x, .error y =>
    if h : x = y then isTrue (h ▸ rfl) else isFalse (fun hh => by cases hh; exact h rfl)
  | .ok _, .error _ => isFalse (fun hh => by cases hh)
  | .error _, .ok _ => isFalse (fun hh => by cases hh)

namespace Kival

/-- Little-endian serialisation of a `uint32` value (`binary.LittleEndian.PutUint32`):
the four bytes of `x % 2^32`, least significant first. -/
def toLE4 (x : Nat) : List Nat :=
  [x % 256, x / 256 % 256, x / 65536 % 256, x / 16777216 % 256]

/-- Little-endian read of a `uint32` (`binary.LittleEndian.Uint32`) from the
first four entries of a byte list. -/
def getLE4 (l : List Nat) : Nat :=
  l.getD 0 0 + 256 * l.getD 1 0 + 65536 * l.getD 2 0 + 16777216 * l.getD 3 0

/-- `os.File.ReadAt` into a buffer of length `n` at `off`: the bytes actually
available there (possibly fewer than `n` at end of file). -/
def readBytes (f : List Nat) (off n : Nat) : List Nat :=
  (f.drop off).take n

/-- Go `copy` into a fresh zeroed buffer of length `n`: copies
`min n src.length` bytes, the rest of the buffer stays zero. -/
def padCopy (n : Nat) (src : List Nat) : List Nat :=
  src.take n ++ List.replicate (n - src.length) 0

/-- `os.File.WriteAt buf off`: overwrite (extending with zeros first if `off`
is past the end, as a sparse write would). -/
def writeAt (f : List Nat) (off : Nat) (buf : List Nat) : List Nat :=
  let g := f ++ List.replicate (off - f.length) 0
  g.take off ++ buf ++ g.drop (off + buf.length)

/-- One byte step of CRC-32C (Castagnoli, reflected polynomial `0x82F63B78`).
`hash/crc32.MakeTable(crc32.Castagnoli)` tabulates exactly this bitwise
update; all intermediate values are `uint32`, kept below `2^32` by the
explicit mod. -/
def crc32Step (crc b : Nat) : Nat :=
  let c0 := (crc ^^^ b) % 4294967296
  let f : Nat → Nat := fun c =>
    if c % 2 = 1 then ((c / 2) ^^^ 0x82F63B78) % 4294967296 else c / 2
  f (f (f (f (f (f (f (f c0)))))))

/-- `crc32.Checksum(data, crc32.MakeTable(crc32.Castagnoli))`: init and final
xor with `0xFFFFFFFF`, byte-wise `crc32Step`. -/
def crc32c (data : List Nat) : Nat :=
  (data.foldl crc32Step 0xFFFFFFFF ^^^ 0xFFFFFFFF) % 4294967296

namespace Record

/-- `record.HeaderSize`: crc(4) + timestamp(4) + keySize(4) + valSize(4). -/
def HeaderSize : Nat := 16

/-- `record.CustomEpoch`. -/
def CustomEpoch : Nat := 1704067200

/-- The decoded record (`record.Record`). -/
structure Rec where
  crc : Nat
  keySize : Nat
  valueSize : Nat
  key : List Nat
  value : List Nat
  timestamp : Nat
  deriving DecidableEq, Repr

/-- The error outcomes of `record.Decode`: the three sentinel errors of the
package, the raw `io.EOF` that `f.ReadAt` returns on a short read (propagated
unchanged by `Decode`), and a Go runtime panic inside `GenerateCRC` (slice
bounds out of range, possible only when `8 + keySize + valueSize` wraps
`uint32`). -/
inductive DecodeErr where
  | emptyKey
  | partialWrite
  | corruptRecord
  | eof
  | panicked
  deriving DecidableEq, Repr

/-- `record.GenerateCRC(keySize, valSize, key, val)`. The scratch buffer is
`make([]byte, 8+keySize+valSize)` with the sum computed in `uint32`; the two
`copy` calls slice it at `8+keySize` (again `uint32`), so out-of-range slice
bounds panic (`none`). On the in-range path the buffer holds the two sizes
little-endian followed by the copied-in key and value bytes. -/
def GenerateCRC (keySize valSize : Nat) (key val : List Nat) : Option Nat :=
  let crs := (8 + keySize + valSize) % 4294967296
  let chi := (8 + keySize) % 4294967296
  if crs < 8 then none
  else if chi < 8 ∨ crs < chi then none
  else some (crc32c (toLE4 keySize ++ toLE4 valSize ++
    padCopy (chi - 8) key ++ padCopy (crs - chi) val))

/-- `record.Encode(key, val)`; `now` models `time.Now().Unix()`. Returns
`some []` when the input guard rejects (empty key, or a length above
`math.MaxUint32`), `none` when a slice-bound panic occurs (the buffer is
`make([]byte, recordSize)` with `recordSize` a `uint32` sum that can wrap),
and otherwise the encoded bytes: crc, timestamp, keySize, valSize
(little-endian) then key then value. -/
def Encode (key val : List Nat) (now : Nat) : Option (List Nat) :=
  if key.length = 0 ∨ key.length > 4294967295 ∨ val.length > 4294967295 then some []
  else
    let ks := key.length
    let vs := val.length
    let rs := (HeaderSize + ks + vs) % 4294967296
    let hi := (HeaderSize + ks) % 4294967296
    if rs < 16 then none
    else if hi < 16 ∨ rs < hi then none
    else
      match GenerateCRC ks vs key val with
      | none => none
      | some crc =>
        let ts32 := (now % 4294967296 + 4294967296 - CustomEpoch % 4294967296) % 4294967296
        some (toLE4 crc ++ toLE4 ts32 ++ toLE4 ks ++ toLE4 vs ++
          padCopy (hi - 16) key ++ padCopy (rs - hi) val)

/-- `record.Decode(f, offset)`: on success returns the record and the new
absolute offset (`offset + headerSize + keySize + valSize`), exactly as the
Go function's mutated `offset` variable is returned. The header is read as
one 16-byte buffer and its fields taken little-endian; `recordSize` is a
`uint32` sum. A short body read surfaces the raw `io.EOF` from `ReadAt`. -/
def Decode (f : List Nat) (offset : Nat) : Except DecodeErr (Rec × Nat) :=
  if offset + HeaderSize > f.length then .error .partialWrite
  else
    let crc := getLE4 (readBytes f offset 4)
    let timestamp := getLE4 (readBytes f (offset + 4) 4)
    let keySize := getLE4 (readBytes f (offset + 8) 4)
    if keySize = 0 then .error .emptyKey
    else
      let valSize := getLE4 (readBytes f (offset + 12) 4)
      let recordSize := (HeaderSize + keySize + valSize) % 4294967296
      if recordSize + offset > f.length then .error .partialWrite
      else
        let key := readBytes f (offset + HeaderSize) keySize
        if key.length < keySize then .error .eof
        else
          let val := readBytes f (offset + HeaderSize + keySize) valSize
          if val.length < valSize then .error .eof
          else if key.length + val.length ≠ keySize + valSize then .error .partialWrite
          else
            match GenerateCRC keySize valSize key val with
            | none => .error .panicked
            | some actualCRC =>
              if crc ≠ actualCRC then .error .corruptRecord
              else .ok (⟨crc, keySize, valSize, key, val, timestamp⟩,
                offset + HeaderSize + keySize + valSize)

end Record

namespace Log

/-- `log.MaxDataFileSize` (the 500-byte test configuration in the source). -/
def MaxDataFileSize : Nat := 500

/-- `log.LogPosition`. -/
structure LogPosition where
  fileID : Nat
  valuePos : Nat
  valueSize : Nat
  timestamp : Nat
  deriving DecidableEq, Repr

/-- `log.logFile`: one segment. `dir` is the directory the file lives in and
`file` its current byte contents (the embedding carries the file inline);
`closed` also stands for the state of the underlying `os.File` handle, which
only `close` ever releases. -/
structure LogFile where
  id : Nat
  dir : String
  file : List Nat
  writePos : Nat
  readOnly : Bool
  closed : Bool
  deriving DecidableEq, Repr

/-- `log.New(id, dir)`: opens or creates `<dir>/<id>.data` and seeks to the
end; `existing` is the current content of that file (`[]` when it does not
exist yet), so `writePos` starts at its length. -/
def newLogFile (id : Nat) (dir : String) (existing : List Nat) : LogFile :=
  ⟨id, dir, existing, existing.length, false, false⟩

/-- `(*logFile).MarkReadOnly`. -/
def markReadOnly (d : LogFile) : LogFile := { d with readOnly := true }

/-- `(*logFile).Close`: sets the closed flag and closes the `os.File`;
`os.File.Close` returns an error when the handle was already closed, which is
exactly when the flag was already set (no other operation closes the
handle). -/
def close (d : LogFile) : LogFile × Except Unit Unit :=
  ({ d with closed := true }, if d.closed then .error () else .ok ())

/-- The error outcomes of `(*logFile).Append`. `panicked` is a runtime panic
inside `record.Encode`. -/
inductive AppendErr where
  | readOnlySegment
  | capacityExceeded
  | panicked
  deriving DecidableEq, Repr

/-- `(*logFile).isCapacityExceeded`: `recordSize` is the `uint32` sum
`record.HeaderSize + uint32(len key) + uint32(len val)`, then compared in
`int64` against the max size. -/
def isCapacityExceeded (d : LogFile) (key val : List Nat) : Bool :=
  let keySize := key.length % 4294967296
  let valSize := val.length % 4294967296
  let recordSize := (Record.HeaderSize + keySize + valSize) % 4294967296
  decide (recordSize + d.writePos > MaxDataFileSize)

/-- `(*logFile).Append(key, val)`; `now` models `time.Now().Unix()`. The
read-only and capacity checks run before anything is written, so both error
cases return the segment unchanged; on success the encoded record is written
at `writePos`, `writePos` advances by the bytes written, and the returned
position carries this segment's id, the start offset, `uint32(len val)` and
`uint32(now)`. -/
def Append (d : LogFile) (key val : List Nat) (now : Nat) :
    LogFile × Except AppendErr LogPosition :=
  if d.readOnly then (d, .error .readOnlySegment)
  else
    let start := d.writePos
    if isCapacityExceeded d key val then (d, .error .capacityExceeded)
    else
      match Record.Encode key val now with
      | none => (d, .error .panicked)
      | some buf =>
        ({ d with file := writeAt d.file start buf, writePos := start + buf.length },
         .ok ⟨d.id, start, val.length % 4294967296, now % 4294967296⟩)

/-- The error outcomes of `(*logFile).ReadAt`. -/
inductive ReadErr where
  | logClosed
  | decodeErr (e : Record.DecodeErr)
  deriving DecidableEq, Repr

/-- `(*logFile).ReadAt(pos)`: fails when the segment is closed, otherwise
decodes at `pos.ValuePos` and returns the value bytes. -/
def ReadAt (d : LogFile) (pos : LogPosition) : Except ReadErr (List Nat) :=
  if d.closed then .error .logClosed
  else
    match Record.Decode d.file pos.valuePos with
    | .error e => .error (.decodeErr e)
    | .ok (rec, _) => .ok rec.value

/-- The in-memory index (`map[string]LogPosition`), as an insertion-ordered
association list from key bytes to positions. -/
abbrev Index := List (List Nat × LogPosition)

/-- Go map assignment `idx[k] = p`: replaces any existing entry for `k`
(moving it to the back; Go's iteration order is unspecified anyway). -/
def indexInsert (idx : Index) (k : List Nat) (p : LogPosition) : Index :=
  (List.filter (fun e => e.1 ≠ k) idx) ++ [(k, p)]

/-- Go `delete(idx, k)`. -/
def indexErase (idx : Index) (k : List Nat) : Index :=
  List.filter (fun e => e.1 ≠ k) idx

/-- Go map read `idx[k]`. -/
def indexLookup (idx : Index) (k : List Nat) : Option LogPosition :=
  List.lookup k idx

/-- The scan loop of `(*logFile).BuildIndex`, with explicit fuel: the Go loop
runs while `offset < fileSize` and every successful iteration strictly
increases `offset` (by `Decode`'s second return value, which is at least
`HeaderSize + 1`), so `file.length + 1` fuel is never exhausted; running out
of fuel returns like a normal loop exit. Decode errors `io.EOF`,
`ErrPartialWrite` and `ErrCorruptRecord` break out of the loop; any other
error is returned. A cleanly decoded tombstone (`valueSize == 0`) deletes the
key, any other record overwrites `idx[key]` with this segment's id, the
record's start offset, its value size and timestamp. -/
def buildIndexLoop (id : Nat) (file : List Nat) :
    Nat → Nat → Index → Except Record.DecodeErr (Index × Nat)
  | 0, offset, idx => .ok (idx, offset)
  | fuel + 1, offset, idx =>
    if offset < file.length then
      let start := offset
      match Record.Decode file offset with
      | .error e =>
        if e = .eof ∨ e = .partialWrite ∨ e = .corruptRecord then .ok (idx, offset)
        else .error e
      | .ok (rec, bytesRead) =>
        let offset' := offset + bytesRead
        if rec.valueSize = 0 then
          buildIndexLoop id file fuel offset' (indexErase idx rec.key)
        else
          buildIndexLoop id file fuel offset'
            (indexInsert idx rec.key ⟨id, start, rec.valueSize, rec.timestamp⟩)
    else .ok (idx, offset)

/-- `(*logFile).BuildIndex(idx)`: scans the file from offset 0 and finally
stores the offset reached into the segment's `writePos`; a hard decode error
returns before `writePos` is updated. -/
def BuildIndex (d : LogFile) (idx : Index) : Except Record.DecodeErr (LogFile × Index) :=
  match buildIndexLoop d.id d.file (d.file.length + 1) 0 idx with
  | .error e => .error e
  | .ok (idx', offset) => .ok ({ d with writePos := offset }, idx')

/-- Byte-wise lexicographic `<=` on character lists; on the ASCII file names
at hand this is exactly Go's `string` ordering (the one `sort.Strings`
uses). File names are handled as `List Char` throughout so that concrete
runs reduce structurally. -/
def charsLe : List Char → List Char → Bool
  | [], _ => true
  | _ :: _, [] => false
  | a :: as, b :: bs =>
    if a.toNat < b.toNat then true
    else if b.toNat < a.toNat then false
    else charsLe as bs

/-- Insert into an ascending-sorted list of names. -/
def insertSorted (x : List Char) : List (List Char) → List (List Char)
  | [] => [x]
  | y :: ys => if charsLe x y then x :: y :: ys else y :: insertSorted x ys

/-- `sort.Strings` (ascending lexicographic). `filepath.Glob` returns the
full paths `<path>/<name>`; every result shares the same directory part, so
the sorted order of the full paths equals the sorted order of the base
names, and the model sorts base names. -/
def sortNames (l : List (List Char)) : List (List Char) := l.foldr insertSorted []

/-- The characters of the `".data"` segment-file suffix. -/
def dataSuffix : List Char := ['.', 'd', 'a', 't', 'a']

/-- `strings.HasSuffix(name, ".data")` (what the `*.data` glob matches). -/
def hasDataSuffix (n : List Char) : Bool := n.reverse.take 5 == dataSuffix.reverse

/-- `log.parseFileID`: `filepath.Base` (the model already holds base names),
`strings.TrimSuffix(…, ".data")`, then `strconv.ParseUint(idStr, 10, 32)`
with the error ignored — a syntax error (empty or non-digit input) makes
`ParseUint` return 0, a range error makes it return the 32-bit cutoff
value; either way the ignored error leaves that number as the id. -/
def parseFileID (name : List Char) : Nat :=
  let idStr := if hasDataSuffix name then name.take (name.length - 5) else name
  if idStr.length ≠ 0 ∧ idStr.all Char.isDigit then
    min (idStr.foldl (fun a c => a * 10 + (c.toNat - 48)) 0) 4294967295
  else 0

/-- Go map assignment `logs[id] = lf`. -/
def logsInsert (logs : List (Nat × LogFile)) (id : Nat) (lf : LogFile) :
    List (Nat × LogFile) :=
  (List.filter (fun e => e.1 ≠ id) logs) ++ [(id, lf)]

/-- The loop body of `log.Open` over the sorted file list (always called with
at least one file): each file is opened via `New` and replayed into the index
via `BuildIndex`; every file except the last in sorted order goes into the
`logs` map, the last becomes the active segment. `dirFiles` maps each base
name to that file's on-disk content. -/
def openLoop (path : String) (dirFiles : List (List Char × List Nat)) :
    List Char → List (List Char) → Index → List (Nat × LogFile) →
    Except Record.DecodeErr (LogFile × List (Nat × LogFile) × Index)
  | f, [], idx, logs =>
    let lf := newLogFile (parseFileID f) path ((dirFiles.lookup f).getD [])
    match BuildIndex lf idx with
    | .error e => .error e
    | .ok (lf', idx') => .ok (lf', logs, idx')
  | f, g :: rest', idx, logs =>
    let id := parseFileID f
    let lf := newLogFile id path ((dirFiles.lookup f).getD [])
    match BuildIndex lf idx with
    | .error e => .error e
    | .ok (lf', idx') => openLoop path dirFiles g rest' idx' (logsInsert logs id lf')

/-- `log.Open(path)`: glob `*.data` in the directory (modelled by `dirFiles`,
the directory's base names with their contents), sort the names, and either
create segment 1 fresh (no files: empty logs map and empty index, no replay)
or replay every file in sorted order, the last one becoming active. -/
def openLog (path : String) (dirFiles : List (List Char × List Nat)) :
    Except Record.DecodeErr (LogFile × List (Nat × LogFile) × Index) :=
  let names := List.filter hasDataSuffix (dirFiles.map Prod.fst)
  match sortNames names with
  | [] => .ok (newLogFile 1 path [], [], [])
  | f :: rest => openLoop path dirFiles f rest [] []

end Log

namespace KV

/-- `kv.DEFAULT_DB_PATH`. -/
def DEFAULT_DB_PATH : String := "./data"

/-- `kv.kv`: the store — active segment, key directory and the sealed-segment
map. -/
structure Store where
  activeLog : Log.LogFile
  keyDir : Log.Index
  logs : List (Nat × Log.LogFile)
  deriving DecidableEq, Repr

/-- `kv.New(path)`: opens the log state at `path` and copies the returned
segment map into the store. -/
def New (path : String) (dirFiles : List (List Char × List Nat)) :
    Except Record.DecodeErr Store :=
  match Log.openLog path dirFiles with
  | .error e => .error e
  | .ok (active, logs, index) => .ok ⟨active, index, logs⟩

/-- The error outcomes of the store operations. The three wrap constructors
record which `fmt.Errorf` produced the error: `Put` and `rotateActiveLog`
wrap with `%v` (the sentinel chain is lost), `Del` wraps with `%w` (the chain
is kept). -/
inductive StoreErr where
  | keyNotFound
  | appendWrapped (e : Log.AppendErr)
  | rotateAppendWrapped (e : Log.AppendErr)
  | delAppendWrapped (e : Log.AppendErr)
  deriving DecidableEq, Repr

/-- `errors.Is(err, log.ErrCapacityExceeded)` on a store error: only `Del`'s
`%w` wrapping preserves the unwrap chain; the `%v` wrappings in `Put` and
`rotateActiveLog` do not. -/
def errorsIsCapacityExceeded : StoreErr → Bool
  | .delAppendWrapped .capacityExceeded => true
  | _ => false

/-- `(*kv).rotateActiveLog(key, data)`: marks the active segment read-only,
creates the next segment (`id + 1`) under the constant `DEFAULT_DB_PATH`
(not the store's open path), records the sealed segment in the `logs` map
under its id, installs the new segment as active, and retries the append
once against it. `fresh` is the pre-existing content of
`./data/<id+1>.data` (`[]` when that file does not exist). -/
def rotateActiveLog (m : Store) (key data : List Nat) (now : Nat) (fresh : List Nat) :
    Store × Except StoreErr Log.LogPosition :=
  let sealed := Log.markReadOnly m.activeLog
  let newLog := Log.newLogFile (sealed.id + 1) DEFAULT_DB_PATH fresh
  let logs' := Log.logsInsert m.logs sealed.id sealed
  match Log.Append newLog key data now with
  | (nl, .error e) => (⟨nl, m.keyDir, logs'⟩, .error (.rotateAppendWrapped e))
  | (nl, .ok pos) => (⟨nl, m.keyDir, logs'⟩, .ok pos)

/-- `(*kv).Put(key, data)`: appends to the active segment; on
`ErrCapacityExceeded` rotates and retries once; any other append error is
wrapped (`%v`) and returned; on success `keyDir[key]` is set to the returned
position. -/
def Put (m : Store) (key data : List Nat) (now : Nat) (fresh : List Nat) :
    Store × Except StoreErr Unit :=
  match Log.Append m.activeLog key data now with
  | (a', .ok pos) => (⟨a', Log.indexInsert m.keyDir key pos, m.logs⟩, .ok ())
  | (a', .error .capacityExceeded) =>
    match rotateActiveLog { m with activeLog := a' } key data now fresh with
    | (m', .error e) => (m', .error e)
    | (m', .ok pos) => ({ m' with keyDir := Log.indexInsert m'.keyDir key pos }, .ok ())
  | (a', .error e) => ({ m with activeLog := a' }, .error (.appendWrapped e))

/-- The error outcomes of `(*kv).Get`. -/
inductive GetErr where
  | keyNotFound
  | readErr (e : Log.ReadErr)
  deriving DecidableEq, Repr

/-- `(*kv).Get(key)`: index lookup, then read from the sealed segment owning
the position's file id, falling back to the active segment. -/
def Get (m : Store) (key : List Nat) : Except GetErr (List Nat) :=
  match Log.indexLookup m.keyDir key with
  | none => .error .keyNotFound
  | some pos =>
    match List.lookup pos.fileID m.logs with
    | some l =>
      match Log.ReadAt l pos with
      | .error e => .error (.readErr e)
      | .ok v => .ok v
    | none =>
      match Log.ReadAt m.activeLog pos with
      | .error e => .error (.readErr e)
      | .ok v => .ok v

/-- `(*kv).Del(key)`: not-found check, tombstone append (`nil` value) to the
active segment — wrapped with `%w` on failure — then the index entry is
removed. -/
def Del (m : Store) (key : List Nat) (now : Nat) : Store × Except StoreErr Unit :=
  match Log.indexLookup m.keyDir key with
  | none => (m, .error .keyNotFound)
  | some _ =>
    match Log.Append m.activeLog key [] now with
    | (a', .error e) => ({ m with activeLog := a' }, .error (.delAppendWrapped e))
    | (a', .ok _) => (⟨a', Log.indexErase m.keyDir key, m.logs⟩, .ok ())

/-- The read step of the modelled compactor: a positioned read dispatched
through the sealed-segment map with fallback to the active segment, exactly
as `Get` dispatches. -/
def storeReadPos (m : Store) (pos : Log.LogPosition) : Except Log.ReadErr (List Nat) :=
  match List.lookup pos.fileID m.logs with
  | some l => Log.ReadAt l pos
  | none => Log.ReadAt m.activeLog pos

/-- The error outcomes of the modelled compactor. -/
inductive CompactErr where
  | readFailed (e : Log.ReadErr)
  | encodePanicked
  deriving DecidableEq, Repr

/-- Modelled from the spec: the repository has no Compactor implementation
(README milestone 10 "Compaction (Merge)" is not checked off and no source
file defines it), so this loop follows spec §4.6 step 4: for each live key of
the snapshotted index, in the snapshot's (stable) iteration order, read its
current value through the existing index entry and append its re-encoded
record to the temporary output segment, recording the new position (new
segment id 1, new offset). -/
def compactGo (m : Store) (now : Nat) :
    Log.Index → List Nat → Log.Index → Except CompactErr (List Nat × Log.Index)
  | [], file, idx => .ok (file, idx)
  | (k, pos) :: rest, file, idx =>
    match storeReadPos m pos with
    | .error e => .error (.readFailed e)
    | .ok v =>
      match Record.Encode k v now with
      | none => .error .encodePanicked
      | some buf =>
        compactGo m now rest (file ++ buf)
          (Log.indexInsert idx k ⟨1, file.length, v.length % 4294967296, now % 4294967296⟩)

/-- Modelled from the spec: `Compact()` per spec §4.6 — snapshot the index
(step 2), rewrite all live records into one fresh segment (step 4, via
`compactGo`), and atomically install it as the single remaining segment with
id 1, active, with the freshly computed index replacing the old one and the
sealed-segment map emptied (step 6 and the file-id reset policy: "after
compaction exactly one segment exists and it is active"). The marker file,
fsync and renames of steps 3/5/6 have no in-memory observable beyond the
resulting store. -/
def Compact (m : Store) (now : Nat) : Except CompactErr Store :=
  match compactGo m now m.keyDir [] [] with
  | .error e => .error e
  | .ok (file, idx) => .ok ⟨⟨1, m.activeLog.dir, file, file.length, false, false⟩, idx, []⟩

end KV

/-! ### Abbreviations used by the theorem statements -/

/-- The timestamp field `uint32(time.Now().Unix()) - uint32(CustomEpoch)`
(`uint32` subtraction, hence the wrap-safe form). -/
def ts32 (now : Nat) : Nat :=
  (now % 4294967296 + 4294967296 - Record.CustomEpoch % 4294967296) % 4294967296

/-- The checksum `Encode` stores for a key/value pair whose sizes do not wrap
`uint32`: CRC-32C over keySize, valSize (little-endian) then key then value. -/
def saneCRC (key val : List Nat) : Nat :=
  crc32c (toLE4 key.length ++ toLE4 val.length ++ (key ++ val))

/-- The bytes `Encode` produces on its non-degenerate path: 16-byte header
(crc, timestamp, keySize, valSize, little-endian) then key then value. -/
def encodeBytes (key val : List Nat) (now : Nat) : List Nat :=
  toLE4 (saneCRC key val) ++ toLE4 (ts32 now) ++ toLE4 key.length ++
    toLE4 val.length ++ (key ++ val)

/-- A concrete run of the claim C2 scenario: on a store freshly opened at an
empty directory, Put k=v1, Put k=v2, Delete k, Put k=v3 with k = "k" (0x6b),
v1 = "a", v2 = "bb", v3 = "ccc", all at `now = CustomEpoch`. -/
def c2Store : KV.Store :=
  (KV.Put (KV.Del (KV.Put (KV.Put
    (⟨Log.newLogFile 1 "./db" [], [], []⟩ : KV.Store)
    [107] [97] 1704067200 []).1
    [107] [98, 98] 1704067200 []).1
    [107] 1704067200).1
    [107] [99, 99, 99] 1704067200 []).1

end Kival

namespace Kival

/-! ### Helper lemmas -/

theorem toLE4_length (x : Nat) : (toLE4 x).length = 4 := rfl

theorem getLE4_toLE4 (x : Nat) : getLE4 (toLE4 x) = x % 4294967296 := by
  simp only [toLE4, getLE4, List.getD]
  simp only [List.get?_eq_getElem?, List.getElem?_cons_zero, List.getElem?_cons_succ,
    Option.getD_some]
  omega

theorem crc32c_lt (l : List Nat) : crc32c l < 4294967296 := by
  simp only [crc32c]
  omega

theorem padCopy_self (l : List Nat) : padCopy l.length l = l := by
  simp [padCopy]

theorem readBytes_at (f pre a rest : List Nat) (n off : Nat)
    (hf : f = pre ++ (a ++ rest)) (hoff : off = pre.length) (h : a.length = n) :
    readBytes f off n = a := by
  subst hf hoff h
  simp only [readBytes, List.drop_left]
  exact List.take_left a rest

theorem encodeBytes_length (key val : List Nat) (now : Nat) :
    (encodeBytes key val now).length = 16 + key.length + val.length := by
  simp [encodeBytes, toLE4]
  omega

theorem writeAt_end (f buf : List Nat) : writeAt f f.length buf = f ++ buf := by
  simp [writeAt]

theorem generateCRC_sane (key val : List Nat) (h : 8 + key.length + val.length ≤ 4294967295) :
    Record.GenerateCRC key.length val.length key val = some (saneCRC key val) := by
  simp only [Record.GenerateCRC]
  rw [Nat.mod_eq_of_lt (by omega : 8 + key.length + val.length < 4294967296),
    Nat.mod_eq_of_lt (by omega : 8 + key.length < 4294967296)]
  rw [if_neg (by omega), if_neg (by omega)]
  have h1 : 8 + key.length - 8 = key.length := by omega
  have h2 : 8 + key.length + val.length - (8 + key.length) = val.length := by omega
  rw [h1, h2, padCopy_self, padCopy_self]
  simp [saneCRC]

theorem ts32_lt (now : Nat) : ts32 now < 4294967296 := Nat.mod_lt _ (by norm_num)

theorem encode_sane (key val : List Nat) (now : Nat) (hk : key ≠ [])
    (hs : 16 + key.length + val.length ≤ 4294967295) :
    Record.Encode key val now = some (encodeBytes key val now) := by
  have hk0 : key.length ≠ 0 := by simpa [List.length_eq_zero] using hk
  simp only [Record.Encode, Record.HeaderSize]
  rw [if_neg (by push_neg; exact ⟨hk0, by omega, by omega⟩)]
  rw [Nat.mod_eq_of_lt (by omega : 16 + key.length + val.length < 4294967296),
    Nat.mod_eq_of_lt (by omega : 16 + key.length < 4294967296)]
  rw [if_neg (by omega), if_neg (by omega)]
  rw [generateCRC_sane key val (by omega)]
  have h1 : 16 + key.length - 16 = key.length := by omega
  have h2 : 16 + key.length + val.length - (16 + key.length) = val.length := by omega
  rw [h1, h2, padCopy_self, padCopy_self]
  simp [encodeBytes, ts32, saneCRC]

theorem decode_at (pre suf key val : List Nat) (now : Nat) (hk : key ≠ [])
    (hs : 16 + key.length + val.length ≤ 4294967295) :
    Record.Decode (pre ++ (encodeBytes key val now ++ suf)) pre.length =
      .ok (⟨saneCRC key val, key.length, val.length, key, val, ts32 now⟩,
        pre.length + Record.HeaderSize + key.length + val.length) := by
  have hk0 : key.length ≠ 0 := by simpa [List.length_eq_zero] using hk
  set C := saneCRC key val with hCdef
  set T := ts32 now with hTdef
  set f := pre ++ (encodeBytes key val now ++ suf) with hFdef
  have hf4 : f = pre ++ (toLE4 C ++ (toLE4 T ++ (toLE4 key.length ++ (toLE4 val.length ++
      (key ++ (val ++ suf)))))) := by
    rw [hFdef]; simp [encodeBytes, List.append_assoc]
  have hlen : f.length = pre.length + (16 + key.length + val.length) + suf.length := by
    rw [hf4]; simp [toLE4]; omega
  have r1 : readBytes f pre.length 4 = toLE4 C :=
    readBytes_at f pre (toLE4 C)
      (toLE4 T ++ (toLE4 key.length ++ (toLE4 val.length ++ (key ++ (val ++ suf)))))
      4 _ hf4 rfl rfl
  have r2 : readBytes f (pre.length + 4) 4 = toLE4 T :=
    readBytes_at f (pre ++ toLE4 C) (toLE4 T)
      (toLE4 key.length ++ (toLE4 val.length ++ (key ++ (val ++ suf)))) 4 _
      (by rw [hf4]; simp [List.append_assoc]) (by simp [toLE4]) rfl
  have r3 : readBytes f (pre.length + 8) 4 = toLE4 key.length :=
    readBytes_at f (pre ++ toLE4 C ++ toLE4 T) (toLE4 key.length)
      (toLE4 val.length ++ (key ++ (val ++ suf))) 4 _
      (by rw [hf4]; simp [List.append_assoc]) (by simp [toLE4]; try omega) rfl
  have r4 : readBytes f (pre.length + 12) 4 = toLE4 val.length :=
    readBytes_at f (pre ++ toLE4 C ++ toLE4 T ++ toLE4 key.length) (toLE4 val.length)
      (key ++ (val ++ suf)) 4 _
      (by rw [hf4]; simp [List.append_assoc]) (by simp [toLE4]; try omega) rfl
  have rkey : readBytes f (pre.length + 16) key.length = key :=
    readBytes_at f (pre ++ toLE4 C ++ toLE4 T ++ toLE4 key.length ++ toLE4 val.length)
      key (val ++ suf) key.length _
      (by rw [hf4]; simp [List.append_assoc]) (by simp [toLE4]; try omega) rfl
  have rval : readBytes f (pre.length + 16 + key.length) val.length = val :=
    readBytes_at f (pre ++ toLE4 C ++ toLE4 T ++ toLE4 key.length ++ toLE4 val.length ++ key)
      val suf val.length _
      (by rw [hf4]; simp [List.append_assoc]) (by simp [toLE4]; try omega) rfl
  have hC : getLE4 (toLE4 C) = C := by
    rw [getLE4_toLE4]; exact Nat.mod_eq_of_lt (hCdef ▸ crc32c_lt _)
  have hT : getLE4 (toLE4 T) = T := by
    rw [getLE4_toLE4]; exact Nat.mod_eq_of_lt (hTdef ▸ ts32_lt now)
  have hK : getLE4 (toLE4 key.length) = key.length := by
    rw [getLE4_toLE4]; exact Nat.mod_eq_of_lt (by omega)
  have hV : getLE4 (toLE4 val.length) = val.length := by
    rw [getLE4_toLE4]; exact Nat.mod_eq_of_lt (by omega)
  simp only [Record.Decode, Record.HeaderSize]
  rw [if_neg (by omega)]
  rw [r1, r2, r3, r4, hC, hT, hK, hV]
  rw [if_neg hk0]
  rw [Nat.mod_eq_of_lt (by omega : 16 + key.length + val.length < 4294967296)]
  rw [if_neg (by omega)]
  rw [rkey]
  rw [if_neg (by omega)]
  rw [rval]
  rw [if_neg (by omega)]
  rw [if_neg (by omega)]
  rw [generateCRC_sane key val (by omega)]
  simp

theorem readBytes_take (l : List Nat) (L off n : Nat) (h : off + n ≤ L) :
    readBytes (l.take L) off n = readBytes l off n := by
  simp only [readBytes, List.drop_take]
  rw [List.take_take]
  congr 1
  omega

theorem append_capacity (d : Log.LogFile) (key val : List Nat) (now : Nat)
    (hro : d.readOnly = false)
    (hcap : (16 + key.length % 4294967296 + val.length % 4294967296) % 4294967296
      + d.writePos > Log.MaxDataFileSize) :
    Log.Append d key val now = (d, .error .capacityExceeded) := by
  simp only [Log.Append, hro, Bool.false_eq_true, if_false]
  rw [if_pos]
  simp only [Log.isCapacityExceeded, Record.HeaderSize, Log.MaxDataFileSize,
    decide_eq_true_eq]
  simpa [Log.MaxDataFileSize] using hcap

theorem append_ok (d : Log.LogFile) (key val : List Nat) (now : Nat)
    (hro : d.readOnly = false) (hk : key ≠ [])
    (hwp : d.writePos = d.file.length)
    (hcap : 16 + key.length + val.length + d.writePos ≤ Log.MaxDataFileSize) :
    Log.Append d key val now =
      ({ d with file := d.file ++ encodeBytes key val now,
                writePos := d.writePos + (16 + key.length + val.length) },
       .ok ⟨d.id, d.writePos, val.length, now % 4294967296⟩) := by
  have hks : key.length ≤ 500 := by simp [Log.MaxDataFileSize] at hcap; omega
  have hvs : val.length ≤ 500 := by simp [Log.MaxDataFileSize] at hcap; omega
  simp only [Log.Append, hro, Bool.false_eq_true, if_false]
  rw [if_neg]
  · rw [encode_sane key val now hk (by omega), hwp]
    dsimp only
    rw [writeAt_end, encodeBytes_length,
      Nat.mod_eq_of_lt (by omega : val.length < 4294967296)]
  · simp only [Log.isCapacityExceeded, Record.HeaderSize, Log.MaxDataFileSize,
      decide_eq_true_eq]
    rw [Nat.mod_eq_of_lt (by omega : key.length < 4294967296),
      Nat.mod_eq_of_lt (by omega : val.length < 4294967296),
      Nat.mod_eq_of_lt (by omega : 16 + key.length + val.length < 4294967296)]
    simp [Log.MaxDataFileSize] at hcap ⊢
    omega

theorem append_fst_id (d : Log.LogFile) (key val : List Nat) (now : Nat) :
    (Log.Append d key val now).1.id = d.id := by
  simp only [Log.Append]
  split
  · rfl
  · split
    · rfl
    · split <;> rfl

theorem append_fst_dir (d : Log.LogFile) (key val : List Nat) (now : Nat) :
    (Log.Append d key val now).1.dir = d.dir := by
  simp only [Log.Append]
  split
  · rfl
  · split
    · rfl
    · split <;> rfl

theorem put_ok (m : KV.Store) (key v : List Nat) (now : Nat) (fresh : List Nat)
    (hro : m.activeLog.readOnly = false) (hk : key ≠ [])
    (hwp : m.activeLog.writePos = m.activeLog.file.length)
    (hcap : 16 + key.length + v.length + m.activeLog.writePos ≤ Log.MaxDataFileSize) :
    KV.Put m key v now fresh =
      ({ activeLog := { m.activeLog with
            file := m.activeLog.file ++ encodeBytes key v now,
            writePos := m.activeLog.writePos + (16 + key.length + v.length) },
          keyDir := Log.indexInsert m.keyDir key
            ⟨m.activeLog.id, m.activeLog.writePos, v.length, now % 4294967296⟩,
          logs := m.logs }, .ok ()) := by
  simp only [KV.Put]
  rw [append_ok m.activeLog key v now hro hk hwp hcap]

theorem del_ok (m : KV.Store) (key : List Nat) (now : Nat) (pos : Log.LogPosition)
    (hfound : Log.indexLookup m.keyDir key = some pos)
    (hro : m.activeLog.readOnly = false) (hk : key ≠ [])
    (hwp : m.activeLog.writePos = m.activeLog.file.length)
    (hcap : 16 + key.length + m.activeLog.writePos ≤ Log.MaxDataFileSize) :
    KV.Del m key now =
      ({ activeLog := { m.activeLog with
            file := m.activeLog.file ++ encodeBytes key [] now,
            writePos := m.activeLog.writePos + (16 + key.length) },
          keyDir := Log.indexErase m.keyDir key, logs := m.logs }, .ok ()) := by
  simp only [KV.Del, hfound]
  rw [append_ok m.activeLog key [] now hro hk hwp (by simpa using hcap)]
  simp

theorem put_never_del_wrapped (m : KV.Store) (key v : List Nat) (now : Nat)
    (fresh : List Nat) (e : Log.AppendErr) :
    (KV.Put m key v now fresh).2 ≠ .error (.delAppendWrapped e) := by
  simp only [KV.Put, KV.rotateActiveLog]
  rcases Log.Append m.activeLog key v now with ⟨a', r⟩
  match r with
  | .ok pos => simp
  | .error .capacityExceeded =>
    rcases h2 : Log.Append (Log.newLogFile ((Log.markReadOnly a').id + 1)
      KV.DEFAULT_DB_PATH fresh) key v now with ⟨nl, r2⟩
    simp only [h2]
    cases r2 <;> simp
  | .error .readOnlySegment => simp
  | .error .panicked => simp

theorem buildIndexLoop_ne_corrupt (id : Nat) (file : List Nat) :
    ∀ (fuel offset : Nat) (idx : Log.Index),
      Log.buildIndexLoop id file fuel offset idx ≠ .error .corruptRecord := by
  intro fuel
  induction fuel with
  | zero => intro offset idx; simp [Log.buildIndexLoop]
  | succ n ih =>
    intro offset idx
    simp only [Log.buildIndexLoop]
    split
    · split
      · split
        · simp
        · simp_all
      · split
        · exact ih _ _
        · exact ih _ _
    · simp



theorem buildIndex_breaks (d : Log.LogFile) (idx : Log.Index) (e : Record.DecodeErr)
    (he : e = .eof ∨ e = .partialWrite ∨ e = .corruptRecord)
    (h : Record.Decode d.file 0 = .error e) :
    Log.BuildIndex d idx = .ok ({ d with writePos := 0 }, idx) := by
  by_cases hlen : 0 < d.file.length
  · simp [Log.BuildIndex, Log.buildIndexLoop, hlen, h, he]
  · have h0 : d.file.length = 0 := by omega
    simp [Log.BuildIndex, Log.buildIndexLoop, h0]

theorem decode_truncated (key val : List Nat) (now : Nat) (L : Nat) (hk : key ≠ [])
    (hs : 16 + key.length + val.length ≤ 4294967295)
    (h1 : 1 ≤ L) (h2 : L < 16 + key.length + val.length) :
    Record.Decode ((encodeBytes key val now).take L) 0 = .error .partialWrite := by
  have hk0 : key.length ≠ 0 := by simpa [List.length_eq_zero] using hk
  have hlen : ((encodeBytes key val now).take L).length = L := by
    rw [List.length_take, encodeBytes_length]; omega
  by_cases hL : L < 16
  · simp only [Record.Decode, Record.HeaderSize, hlen]
    rw [if_pos (by omega)]
  · have hfull3 : readBytes (encodeBytes key val now) 8 4 = toLE4 key.length :=
      readBytes_at _ (toLE4 (saneCRC key val) ++ toLE4 (ts32 now)) (toLE4 key.length)
        (toLE4 val.length ++ (key ++ val)) 4 _
        (by simp [encodeBytes, List.append_assoc]) (by simp [toLE4]) rfl
    have hfull4 : readBytes (encodeBytes key val now) 12 4 = toLE4 val.length :=
      readBytes_at _ (toLE4 (saneCRC key val) ++ toLE4 (ts32 now) ++ toLE4 key.length)
        (toLE4 val.length) (key ++ val) 4 _
        (by simp [encodeBytes, List.append_assoc]) (by simp [toLE4]) rfl
    have r3 : readBytes ((encodeBytes key val now).take L) 8 4 = toLE4 key.length := by
      rw [readBytes_take _ _ _ _ (by omega), hfull3]
    have r4 : readBytes ((encodeBytes key val now).take L) 12 4 = toLE4 val.length := by
      rw [readBytes_take _ _ _ _ (by omega), hfull4]
    have hK : getLE4 (toLE4 key.length) = key.length := by
      rw [getLE4_toLE4]; exact Nat.mod_eq_of_lt (by omega)
    have hV : getLE4 (toLE4 val.length) = val.length := by
      rw [getLE4_toLE4]; exact Nat.mod_eq_of_lt (by omega)
    simp only [Record.Decode, Record.HeaderSize, hlen]
    rw [if_neg (by omega)]
    rw [r3, r4, hK, hV]
    rw [if_neg hk0]
    rw [Nat.mod_eq_of_lt (by omega : 16 + key.length + val.length < 4294967296)]
    rw [if_pos (by omega)]

/-! ### Claim theorems -/

/-- Any `Encode` input whose `uint32` record size wraps into `[0, 15]` makes the
Go function panic on the `buf[12:16]` slice (modelled as `none`): used by the
claim C3 counterexample. -/
theorem encode_panics (key val : List Nat) (now : Nat) (hk : key.length ≠ 0)
    (hks : key.length ≤ 4294967295) (hvs : val.length ≤ 4294967295)
    (hwrap : 4294967296 ≤ 16 + key.length + val.length)
    (hband : 16 + key.length + val.length ≤ 4294967296 + 15) :
    Record.Encode key val now = none := by
  simp only [Record.Encode, Record.HeaderSize]
  rw [if_neg (by push_neg; exact ⟨hk, by omega, by omega⟩)]
  rw [if_pos (by omega)]

/-- Claim C1 (code_bug evidence): opening a directory holding segment files
`2.data` and `10.data` (each with one record for key 0x6b) replays them in
lexicographic file-name order — `10.data` before `2.data` — and classifies
segment 2 (not the highest id, 10) as active, leaving 10 sealed and the index
pointing at `2.data`'s record; the claim (and spec §4.3) requires numeric
ascending replay with segment 10 active. -/
theorem c1_open_sorts_lexicographically :
    Log.openLog "./db"
      [("2.data".data, (Record.Encode [107] [50] 1704067200).getD []),
       ("10.data".data, (Record.Encode [107] [49, 48] 1704067200).getD [])] =
      .ok (⟨2, "./db", (Record.Encode [107] [50] 1704067200).getD [], 18, false, false⟩,
        [(10, ⟨10, "./db", (Record.Encode [107] [49, 48] 1704067200).getD [], 19, false,
          false⟩)],
        [([107], ⟨2, 0, 1, 0⟩)]) := by
  decide

/-- Claim C2 (code_bug evidence): after Put(k,v1), Put(k,v2), Delete(k),
Put(k,v3) on one segment (k = 0x6b, v1 = "a", v2 = "bb", v3 = "ccc"), the live
index points at v3's record (offset 54) and v3's record decodes fine there,
but a fresh `BuildIndex` scan of the same file ends with the entry for k at
offset 18 — v2's superseded record — and `writePos` 55, because the scan
advances `offset` by `Decode`'s returned absolute end offset
(`offset += bytesRead`) instead of the record's byte count, skipping the
tombstone and v3's record. -/
theorem c2_rebuild_points_at_superseded_record :
    c2Store.keyDir = [([107], ⟨1, 54, 3, 1704067200⟩)] ∧
    KV.Get c2Store [107] = .ok [99, 99, 99] ∧
    Record.Decode c2Store.activeLog.file 54 =
      .ok (⟨592580864, 1, 3, [107], [99, 99, 99], 0⟩, 74) ∧
    Log.BuildIndex (Log.newLogFile 1 "./db" c2Store.activeLog.file) [] =
      .ok (⟨1, "./db", c2Store.activeLog.file, 55, false, false⟩,
        [([107], ⟨1, 18, 2, 0⟩)]) := by
  refine ⟨by decide, by decide, by decide, by decide⟩

/-- Claim C3 counterexample: within the claim's stated domain (non-empty key,
each length at most 2^32 - 1) `Encode` does not always produce an encoding —
at a key of length 2^32 - 1 the `uint32` record size wraps to 15 and the Go
code panics on a slice bound (modelled as `none`), so no round-trip exists
there. -/
theorem c3_encode_panic_counterexample :
    ¬ (∀ (key val : List Nat) (now : Nat), key ≠ [] →
        key.length ≤ 4294967295 → val.length ≤ 4294967295 →
        ∃ body, Record.Encode key val now = some body ∧ body ≠ []) := by
  intro h
  obtain ⟨body, hb, hne⟩ := h (List.replicate 4294967295 1) [] 0
    (by rw [Ne, List.replicate_eq_nil_iff]; norm_num)
    (le_of_eq (List.length_replicate _ _))
    (Nat.zero_le _)
  have hnone : Record.Encode (List.replicate 4294967295 1) [] 0 = none :=
    encode_panics _ _ _ (by rw [List.length_replicate]; norm_num)
      (le_of_eq (List.length_replicate _ _)) (Nat.zero_le _)
      (by rw [List.length_replicate, List.length_nil]; norm_num)
      (by rw [List.length_replicate, List.length_nil])
  rw [hnone] at hb
  cases hb

/-- Claim C3 (amended): for every non-empty key and value with
`16 + |key| + |value| ≤ 2^32 - 1` (so the `uint32` record size cannot wrap),
`Encode` returns a non-empty encoding of that exact length, and decoding it at
the offset where it was written (any prefix before it, any suffix after it)
returns the original key and value with the stored CRC equal to the checksum
recomputed over (keySize, valueSize, key, value); moreover `Encode` returns
the empty encoding exactly when the key is empty or a length exceeds the
32-bit domain. -/
theorem c3_roundtrip_amended :
    (∀ (pre suf key val : List Nat) (now : Nat), key ≠ [] →
      16 + key.length + val.length ≤ 4294967295 →
      Record.Encode key val now = some (encodeBytes key val now) ∧
      encodeBytes key val now ≠ [] ∧
      (encodeBytes key val now).length = 16 + key.length + val.length ∧
      Record.Decode (pre ++ (encodeBytes key val now ++ suf)) pre.length =
        .ok (⟨saneCRC key val, key.length, val.length, key, val, ts32 now⟩,
          pre.length + Record.HeaderSize + key.length + val.length)) ∧
    (∀ (key val : List Nat) (now : Nat),
      Record.Encode key val now = some [] ↔
        key = [] ∨ key.length > 4294967295 ∨ val.length > 4294967295) := by
  constructor
  · intro pre suf key val now hk hs
    exact ⟨encode_sane key val now hk hs, by simp [encodeBytes, toLE4],
      encodeBytes_length key val now, decode_at pre suf key val now hk hs⟩
  · intro key val now
    constructor
    · intro h
      by_cases hg : key.length = 0 ∨ key.length > 4294967295 ∨ val.length > 4294967295
      · rcases hg with h0 | h1 | h2
        · exact Or.inl (List.length_eq_zero.mp h0)
        · exact Or.inr (Or.inl h1)
        · exact Or.inr (Or.inr h2)
      · exfalso
        simp only [Record.Encode, if_neg hg] at h
        split at h
        · cases h
        · split at h
          · cases h
          · rcases hG : Record.GenerateCRC key.length val.length key val with _ | crc <;>
              rw [hG] at h
            · cases h
            · simp only [Option.some.injEq] at h
              apply absurd h
              simp [toLE4]
    · intro hg
      have hcond : key.length = 0 ∨ key.length > 4294967295 ∨ val.length > 4294967295 := by
        rcases hg with h0 | h1 | h2
        · exact Or.inl (by simp [h0])
        · exact Or.inr (Or.inl h1)
        · exact Or.inr (Or.inr h2)
      simp only [Record.Encode, if_pos hcond]

/-- Witness for C3's amended round-trip at key "k" (0x6b), value "v" (0x76),
written at offset 0 with nothing after it. -/
theorem c3_witness :
    ([107] : List Nat) ≠ [] ∧
    16 + ([107] : List Nat).length + ([118] : List Nat).length ≤ 4294967295 ∧
    Record.Decode ([] ++ (encodeBytes [107] [118] 1704067200 ++ [])) 0 =
      .ok (⟨saneCRC [107] [118], 1, 1, [107], [118], ts32 1704067200⟩,
        ([] : List Nat).length + Record.HeaderSize + 1 + 1) :=
  ⟨by decide, by decide,
    (c3_roundtrip_amended.1 [] [] [107] [118] 1704067200 (by decide) (by decide)).2.2.2⟩

/-- Claim C4: an append whose `uint32` record size added to the current
`writePos` exceeds the configured max segment size fails with
CapacityExceeded before anything is written — the returned segment is the
input segment, file contents and `writePos` untouched — while an append that
fills the segment exactly to the max size succeeds and leaves `writePos`
exactly at the max. -/
theorem c4_capacity_is_pure_precondition :
    (∀ (d : Log.LogFile) (key val : List Nat) (now : Nat), d.readOnly = false →
      (16 + key.length % 4294967296 + val.length % 4294967296) % 4294967296 + d.writePos >
        Log.MaxDataFileSize →
      Log.Append d key val now = (d, .error .capacityExceeded)) ∧
    (∀ (d : Log.LogFile) (key val : List Nat) (now : Nat), d.readOnly = false → key ≠ [] →
      d.writePos + (16 + key.length + val.length) = Log.MaxDataFileSize →
      (Log.Append d key val now).2 = .ok ⟨d.id, d.writePos, val.length, now % 4294967296⟩ ∧
      (Log.Append d key val now).1.writePos = Log.MaxDataFileSize) := by
  constructor
  · exact fun d key val now hro hcap => append_capacity d key val now hro hcap
  · intro d key val now hro hk hfill
    have hks : key.length ≤ 500 := by simp [Log.MaxDataFileSize] at hfill; omega
    have hvs : val.length ≤ 500 := by simp [Log.MaxDataFileSize] at hfill; omega
    have happ : Log.Append d key val now =
        ({ id := d.id, dir := d.dir,
            file := writeAt d.file d.writePos (encodeBytes key val now),
            writePos := d.writePos + (16 + key.length + val.length),
            readOnly := false, closed := d.closed },
          .ok ⟨d.id, d.writePos, val.length, now % 4294967296⟩) := by
      simp only [Log.Append, hro, Bool.false_eq_true, if_false]
      rw [if_neg ?hcap]
      case hcap =>
        simp only [Log.isCapacityExceeded, Record.HeaderSize, Log.MaxDataFileSize,
          decide_eq_true_eq]
        rw [Nat.mod_eq_of_lt (by omega : key.length < 4294967296),
          Nat.mod_eq_of_lt (by omega : val.length < 4294967296),
          Nat.mod_eq_of_lt (by omega : 16 + key.length + val.length < 4294967296)]
        simp [Log.MaxDataFileSize] at hfill
        omega
      rw [encode_sane key val now hk (by omega)]
      dsimp only
      rw [encodeBytes_length, Nat.mod_eq_of_lt (by omega : val.length < 4294967296)]
    rw [happ]
    exact ⟨rfl, by simpa [Log.MaxDataFileSize] using hfill⟩

/-- Witness for C4: a 516-byte record is rejected on a fresh segment leaving
it untouched; a record filling a fresh segment to exactly 500 bytes
succeeds. -/
theorem c4_witness :
    Log.Append (Log.newLogFile 1 "./db" []) (List.replicate 500 1) [] 0 =
      (Log.newLogFile 1 "./db" [], .error .capacityExceeded) ∧
    (Log.Append ⟨1, "./db", [], 0, false, false⟩ [1] (List.replicate 483 7) 0).2 =
      .ok ⟨1, 0, 483, 0⟩ := by
  constructor
  · exact c4_capacity_is_pure_precondition.1 _ _ _ _ rfl (by decide)
  · have h := (c4_capacity_is_pure_precondition.2 ⟨1, "./db", [], 0, false, false⟩
      [1] (List.replicate 483 7) 0 rfl (by decide) (by decide)).1
    simpa using h

/-- Claim C5: when an append to the active segment would exceed capacity, Put
rotates — the new active segment has id old + 1 and the old segment is
recorded, sealed, in the `logs` map under its id; the retried append runs
exactly once against the new segment: if it fits, Put succeeds with
`keyDir[key]` set to the position in the new segment, and if even the fresh
segment cannot hold it, Put returns that wrapped error without further
retries; and no error Put ever returns satisfies
`errors.Is(err, ErrCapacityExceeded)` (the `%v` wrapping severs the chain). -/
theorem c5_put_rotates_on_capacity :
    (∀ (m : KV.Store) (key data : List Nat) (now : Nat) (fresh : List Nat),
      m.activeLog.readOnly = false →
      (16 + key.length % 4294967296 + data.length % 4294967296) % 4294967296
        + m.activeLog.writePos > Log.MaxDataFileSize →
      (KV.Put m key data now fresh).1.activeLog.id = m.activeLog.id + 1 ∧
      (KV.Put m key data now fresh).1.logs =
        Log.logsInsert m.logs m.activeLog.id (Log.markReadOnly m.activeLog)) ∧
    (∀ (m : KV.Store) (key data : List Nat) (now : Nat),
      m.activeLog.readOnly = false → key ≠ [] →
      (16 + key.length % 4294967296 + data.length % 4294967296) % 4294967296
        + m.activeLog.writePos > Log.MaxDataFileSize →
      16 + key.length + data.length ≤ Log.MaxDataFileSize →
      KV.Put m key data now [] =
        ({ activeLog := ⟨m.activeLog.id + 1, KV.DEFAULT_DB_PATH, encodeBytes key data now,
              16 + key.length + data.length, false, false⟩,
            keyDir := Log.indexInsert m.keyDir key
              ⟨m.activeLog.id + 1, 0, data.length, now % 4294967296⟩,
            logs := Log.logsInsert m.logs m.activeLog.id (Log.markReadOnly m.activeLog) },
          .ok ())) ∧
    (∀ (m : KV.Store) (key data : List Nat) (now : Nat) (fresh : List Nat),
      m.activeLog.readOnly = false →
      (16 + key.length % 4294967296 + data.length % 4294967296) % 4294967296
        + m.activeLog.writePos > Log.MaxDataFileSize →
      (16 + key.length % 4294967296 + data.length % 4294967296) % 4294967296
        + fresh.length > Log.MaxDataFileSize →
      (KV.Put m key data now fresh).2 =
        .error (.rotateAppendWrapped .capacityExceeded)) ∧
    (∀ (m : KV.Store) (key data : List Nat) (now : Nat) (fresh : List Nat)
      (e : KV.StoreErr),
      (KV.Put m key data now fresh).2 = .error e →
      KV.errorsIsCapacityExceeded e = false) := by
  refine ⟨?rot, ?retryOk, ?retryFail, ?noCap⟩
  case rot =>
    intro m key data now fresh hro hcap
    simp only [KV.Put, append_capacity m.activeLog key data now hro hcap]
    simp only [KV.rotateActiveLog]
    rcases h2 : Log.Append (Log.newLogFile ((Log.markReadOnly m.activeLog).id + 1)
      KV.DEFAULT_DB_PATH fresh) key data now with ⟨nl, r2⟩
    have hid : nl.id = (Log.markReadOnly m.activeLog).id + 1 := by
      have := append_fst_id (Log.newLogFile ((Log.markReadOnly m.activeLog).id + 1)
        KV.DEFAULT_DB_PATH fresh) key data now
      rw [h2] at this
      exact this
    cases r2 <;> simp [h2, hid, Log.markReadOnly]
  case retryOk =>
    intro m key data now hro hk hcap hfit
    simp only [KV.Put, append_capacity m.activeLog key data now hro hcap]
    simp only [KV.rotateActiveLog]
    have hfresh : Log.Append (Log.newLogFile ((Log.markReadOnly m.activeLog).id + 1)
        KV.DEFAULT_DB_PATH []) key data now =
        (⟨(Log.markReadOnly m.activeLog).id + 1, KV.DEFAULT_DB_PATH,
            encodeBytes key data now, 16 + key.length + data.length, false, false⟩,
          .ok ⟨(Log.markReadOnly m.activeLog).id + 1, 0, data.length, now % 4294967296⟩) := by
      have h := append_ok (Log.newLogFile ((Log.markReadOnly m.activeLog).id + 1)
        KV.DEFAULT_DB_PATH []) key data now rfl hk rfl (by simpa using hfit)
      simpa [Log.newLogFile] using h
    rw [hfresh]
    simp [Log.markReadOnly]
  case retryFail =>
    intro m key data now fresh hro hcap hcap2
    simp only [KV.Put, append_capacity m.activeLog key data now hro hcap]
    simp only [KV.rotateActiveLog]
    rw [append_capacity (Log.newLogFile ((Log.markReadOnly m.activeLog).id + 1)
      KV.DEFAULT_DB_PATH fresh) key data now rfl (by simpa [Log.newLogFile] using hcap2)]
  case noCap =>
    intro m key data now fresh e he
    rcases e with _ | e1 | e2 | e3
    · rfl
    · rfl
    · rfl
    · exact absurd he (put_never_del_wrapped m key data now fresh e3)

/-- Witness for C5 on a nearly full active segment (writePos 490): rotation to
id 2, explicit retry success, retry failure when the new file is already
490 bytes, and `errors.Is` capacity false for a Put error. -/
theorem c5_witness :
    ((KV.Put (⟨⟨1, "./db", [], 490, false, false⟩, [], []⟩ : KV.Store)
        [1] [2] 0 []).1.activeLog.id = 2 ∧
      (KV.Put (⟨⟨1, "./db", [], 490, false, false⟩, [], []⟩ : KV.Store)
        [1] [2] 0 []).1.logs =
        Log.logsInsert [] 1 (Log.markReadOnly ⟨1, "./db", [], 490, false, false⟩)) ∧
    (KV.Put (⟨⟨1, "./db", [], 490, false, false⟩, [], []⟩ : KV.Store) [1] [2] 0 [] =
      ({ activeLog := ⟨2, KV.DEFAULT_DB_PATH, encodeBytes [1] [2] 0, 18, false, false⟩,
          keyDir := Log.indexInsert [] [1] ⟨2, 0, 1, 0⟩,
          logs := Log.logsInsert [] 1 (Log.markReadOnly ⟨1, "./db", [], 490, false,
            false⟩) }, .ok ())) ∧
    ((KV.Put (⟨⟨1, "./db", [], 490, false, false⟩, [], []⟩ : KV.Store)
        [1] [2] 0 (List.replicate 490 0)).2 =
      .error (.rotateAppendWrapped .capacityExceeded)) ∧
    KV.errorsIsCapacityExceeded (.appendWrapped .readOnlySegment) = false :=
  ⟨c5_put_rotates_on_capacity.1 _ [1] [2] 0 [] rfl (by decide),
    c5_put_rotates_on_capacity.2.1 _ [1] [2] 0 rfl (by decide) (by decide) (by decide),
    c5_put_rotates_on_capacity.2.2.1 _ [1] [2] 0 (List.replicate 490 0) rfl (by decide)
      (by decide),
    c5_put_rotates_on_capacity.2.2.2
      (⟨⟨1, "./db", [], 0, true, false⟩, [], []⟩ : KV.Store) [1] [] 0 []
      (.appendWrapped .readOnlySegment) (by decide)⟩

/-- Claim C6 counterexample: a file whose single record carries a CRC field
(zero) that does not match the recomputed checksum makes `Decode` report
CorruptRecord, yet `BuildIndex` over that file returns success with an empty
index — it stops the scan quietly instead of aborting with an error as the
claim (and spec §4.4) state. -/
theorem c6_corrupt_counterexample :
    Record.Decode ([0, 0, 0, 0, 0, 0, 0, 0, 1, 0, 0, 0, 1, 0, 0, 0, 107, 118]) 0 =
      .error .corruptRecord ∧
    Log.BuildIndex
      (Log.newLogFile 1 "./db" [0, 0, 0, 0, 0, 0, 0, 0, 1, 0, 0, 0, 1, 0, 0, 0, 107, 118])
      [] =
      .ok (⟨1, "./db", [0, 0, 0, 0, 0, 0, 0, 0, 1, 0, 0, 0, 1, 0, 0, 0, 107, 118], 0,
        false, false⟩, []) := by
  refine ⟨by decide, by decide⟩

/-- Claim C6 (amended): when the scan of a segment hits a CorruptRecord,
`BuildIndex` stops scanning that segment exactly as it does on PartialWrite —
returning success with the index built so far (here: at the first record,
leaving the index unchanged and `writePos` 0) — and `BuildIndex` never
propagates CorruptRecord as an error. -/
theorem c6_corrupt_amended (d : Log.LogFile) (idx : Log.Index)
    (h : Record.Decode d.file 0 = .error .corruptRecord) :
    Log.BuildIndex d idx = .ok ({ d with writePos := 0 }, idx) ∧
    (∀ (d' : Log.LogFile) (idx' : Log.Index),
      Log.BuildIndex d' idx' ≠ .error .corruptRecord) := by
  refine ⟨buildIndex_breaks d idx .corruptRecord (Or.inr (Or.inr rfl)) h, ?_⟩
  intro d' idx'
  simp only [Log.BuildIndex]
  rcases hl : Log.buildIndexLoop d'.id d'.file (d'.file.length + 1) 0 idx' with e | p
  · intro hc
    rw [show e = Record.DecodeErr.corruptRecord by injection hc] at hl
    exact buildIndexLoop_ne_corrupt d'.id d'.file _ _ _ hl
  · simp

/-- Witness for C6's amended behaviour at a concrete corrupt single-record
file. -/
theorem c6_witness :
    Log.BuildIndex
      (Log.newLogFile 1 "./db" [0, 0, 0, 0, 0, 0, 0, 0, 1, 0, 0, 0, 1, 0, 0, 0, 107, 119])
      [] =
      .ok (⟨1, "./db", [0, 0, 0, 0, 0, 0, 0, 0, 1, 0, 0, 0, 1, 0, 0, 0, 107, 119], 0,
        false, false⟩, []) :=
  (c6_corrupt_amended _ [] (by decide)).1

/-- Claim C7: truncating a single validly encoded record by any 1 ≤ t ≤
recordSize - 1 trailing bytes — whether the cut lands in the 16-byte header
or in the key/value body — makes `Decode` at offset 0 report PartialWrite
(never CorruptRecord, never a crash), and `BuildIndex` over the truncated
file stops immediately, returning success with the index unchanged and
`writePos` 0. -/
theorem c7_truncation_is_partial_write :
    ∀ (key val : List Nat) (now t : Nat), key ≠ [] →
      16 + key.length + val.length ≤ 4294967295 →
      1 ≤ t → t ≤ 16 + key.length + val.length - 1 →
      ∀ body, Record.Encode key val now = some body →
      Record.Decode (body.take (16 + key.length + val.length - t)) 0 =
        .error .partialWrite ∧
      ∀ (id : Nat) (dir : String) (idx : Log.Index),
        Log.BuildIndex
          (Log.newLogFile id dir (body.take (16 + key.length + val.length - t))) idx =
          .ok (⟨id, dir, body.take (16 + key.length + val.length - t), 0, false, false⟩,
            idx) := by
  intro key val now t hk hs ht1 ht2 body hb
  rw [encode_sane key val now hk hs] at hb
  have hbody : body = encodeBytes key val now := by injection hb with h; exact h.symm
  subst hbody
  have hdec : Record.Decode ((encodeBytes key val now).take
      (16 + key.length + val.length - t)) 0 = .error .partialWrite :=
    decode_truncated key val now _ hk hs (by omega) (by omega)
  refine ⟨hdec, fun id dir idx => ?_⟩
  have h := buildIndex_breaks
    (Log.newLogFile id dir
      ((encodeBytes key val now).take (16 + key.length + val.length - t)))
    idx .partialWrite (Or.inr (Or.inl rfl)) hdec
  simpa [Log.newLogFile] using h

/-- Witness for C7: the record for ("k", "v") truncated by 3 bytes (into the
value/body region) decodes as PartialWrite and the rebuild stops cleanly. -/
theorem c7_witness :
    ([107] : List Nat) ≠ [] ∧
    Record.Encode [107] [118] 1704067200 = some (encodeBytes [107] [118] 1704067200) ∧
    Record.Decode ((encodeBytes [107] [118] 1704067200).take (16 + 1 + 1 - 3)) 0 =
      .error .partialWrite ∧
    Log.BuildIndex (Log.newLogFile 4 "./db"
        ((encodeBytes [107] [118] 1704067200).take (16 + 1 + 1 - 3))) [] =
      .ok (⟨4, "./db", (encodeBytes [107] [118] 1704067200).take (16 + 1 + 1 - 3), 0,
        false, false⟩, []) := by
  have h := c7_truncation_is_partial_write [107] [118] 1704067200 3 (by decide) (by decide)
    (by decide) (by decide) (encodeBytes [107] [118] 1704067200)
    (encode_sane [107] [118] 1704067200 (by decide) (by decide))
  exact ⟨by decide, encode_sane [107] [118] 1704067200 (by decide) (by decide),
    by simpa using h.1, by simpa using h.2 4 "./db" []⟩

/-- Claim C9 counterexample: the first `Close` of a fresh segment succeeds,
but a second `Close` returns an error (from `os.File.Close` on an
already-closed handle) instead of behaving the same as the first call. -/
theorem c9_close_counterexample :
    (Log.close (Log.newLogFile 1 "./db" [])).2 = .ok () ∧
    (Log.close (Log.close (Log.newLogFile 1 "./db" [])).1).2 = .error () := by
  constructor <;> rfl

/-- Claim C9 (amended): a second `Close` is idempotent on the segment state —
the segment stays closed with its handle released, identical to the state
after the first call — but its return value is not: the second call reports
the underlying file handle's already-closed error for every segment. -/
theorem c9_close_amended (d : Log.LogFile) :
    (Log.close (Log.close d).1).1 = (Log.close d).1 ∧
    (Log.close d).1.closed = true ∧
    (Log.close (Log.close d).1).2 = .error () := by
  refine ⟨rfl, rfl, ?_⟩
  simp [Log.close]

/-- Claim C10: a Put that triggers rotation installs a new active segment
whose directory is the constant `DEFAULT_DB_PATH` ("./data"), not the
directory `p` the store was opened at; the pre- and post-rotation segments
share a directory exactly when `p` is "./data". -/
theorem c10_rotation_uses_default_path :
    ∀ (m : KV.Store) (p : String) (key data : List Nat) (now : Nat) (fresh : List Nat),
      m.activeLog.dir = p →
      m.activeLog.readOnly = false →
      (16 + key.length % 4294967296 + data.length % 4294967296) % 4294967296
        + m.activeLog.writePos > Log.MaxDataFileSize →
      (KV.Put m key data now fresh).1.activeLog.dir = KV.DEFAULT_DB_PATH ∧
      ((KV.Put m key data now fresh).1.activeLog.dir = p ↔ p = KV.DEFAULT_DB_PATH) := by
  intro m p key data now fresh hdir hro hcap
  simp only [KV.Put, append_capacity m.activeLog key data now hro hcap]
  simp only [KV.rotateActiveLog]
  rcases h2 : Log.Append (Log.newLogFile ((Log.markReadOnly m.activeLog).id + 1)
    KV.DEFAULT_DB_PATH fresh) key data now with ⟨nl, r2⟩
  have hd : nl.dir = KV.DEFAULT_DB_PATH := by
    have := append_fst_dir (Log.newLogFile ((Log.markReadOnly m.activeLog).id + 1)
      KV.DEFAULT_DB_PATH fresh) key data now
    rw [h2] at this
    exact this
  cases r2 <;> simp [h2, hd] <;> constructor <;> intro h <;> simp [h.symm]

/-- Witness for C10: a store opened at "./db" rotates into "./data". -/
theorem c10_witness :
    (KV.Put (⟨⟨1, "./db", [], 490, false, false⟩, [], []⟩ : KV.Store)
      [1] [2] 0 []).1.activeLog.dir = KV.DEFAULT_DB_PATH ∧
    ((KV.Put (⟨⟨1, "./db", [], 490, false, false⟩, [], []⟩ : KV.Store)
      [1] [2] 0 []).1.activeLog.dir = "./db" ↔ "./db" = KV.DEFAULT_DB_PATH) :=
  c10_rotation_uses_default_path
    (⟨⟨1, "./db", [], 490, false, false⟩, [], []⟩ : KV.Store) "./db" [1] [2] 0 []
    rfl rfl (by decide)

/-- Claim C8 (spec-modelled; the repository contains no Compactor): for every
store built by Put(k1,v1), Put(k1,v2), Put(k2,va), Delete(k2), Put(k3,v3)
(k1 = [1], k2 = [2], k3 = [3], values of bounded size so everything fits in
one segment), `Compact` succeeds and the resulting store answers Get(k1) = v2,
Get(k2) = NotFound, Get(k3) = v3, holds no sealed segments, and its single
active segment (id 1, writable) is sized to exactly the two live records. -/
theorem c8_compaction_preserves_live_data :
    ∀ (v1 v2 va v3 : List Nat) (now : Nat),
      v1.length ≤ 80 → v2.length ≤ 80 → va.length ≤ 80 → v3.length ≤ 80 →
      ∀ s4 : KV.Store,
        s4 = (KV.Put (KV.Del (KV.Put (KV.Put (KV.Put
            (⟨⟨1, "./db", [], 0, false, false⟩, [], []⟩ : KV.Store)
            [1] v1 now []).1 [1] v2 now []).1 [2] va now []).1 [2] now).1
            [3] v3 now []).1 →
        ∃ s' : KV.Store, KV.Compact s4 now = .ok s' ∧
          KV.Get s' [1] = .ok v2 ∧
          KV.Get s' [2] = .error .keyNotFound ∧
          KV.Get s' [3] = .ok v3 ∧
          s'.logs = [] ∧ s'.activeLog.readOnly = false ∧ s'.activeLog.closed = false ∧
          s'.activeLog.id = 1 ∧
          s'.activeLog.file.length = (16 + 1 + v2.length) + (16 + 1 + v3.length) ∧
          s'.activeLog.writePos = s'.activeLog.file.length := by
  intro v1 v2 va v3 now h1 h2 ha h3 s4 hs4
  have hA1 : (KV.Put (⟨⟨1, "./db", [], 0, false, false⟩, [], []⟩ : KV.Store)
      [1] v1 now []).1 =
      ⟨⟨1, "./db", encodeBytes [1] v1 now, 16 + 1 + v1.length, false, false⟩,
        [([1], ⟨1, 0, v1.length, now % 4294967296⟩)], []⟩ := by
    rw [put_ok _ [1] v1 now [] rfl (by decide) rfl
      (by simp [Log.MaxDataFileSize]; omega)]
    simp [Log.indexInsert]
  rw [hA1] at hs4
  have hA2 : (KV.Put (⟨⟨1, "./db", encodeBytes [1] v1 now, 16 + 1 + v1.length, false,
      false⟩, [([1], ⟨1, 0, v1.length, now % 4294967296⟩)], []⟩ : KV.Store)
      [1] v2 now []).1 =
      ⟨⟨1, "./db", encodeBytes [1] v1 now ++ encodeBytes [1] v2 now,
          16 + 1 + v1.length + (16 + 1 + v2.length), false, false⟩,
        [([1], ⟨1, 16 + 1 + v1.length, v2.length, now % 4294967296⟩)], []⟩ := by
    rw [put_ok _ [1] v2 now [] rfl (by decide) (by simp [encodeBytes_length])
      (by simp [Log.MaxDataFileSize]; omega)]
    simp [Log.indexInsert]
  rw [hA2] at hs4
  have hA3 : (KV.Put (⟨⟨1, "./db", encodeBytes [1] v1 now ++ encodeBytes [1] v2 now,
      16 + 1 + v1.length + (16 + 1 + v2.length), false, false⟩,
      [([1], ⟨1, 16 + 1 + v1.length, v2.length, now % 4294967296⟩)], []⟩ : KV.Store)
      [2] va now []).1 =
      ⟨⟨1, "./db", encodeBytes [1] v1 now ++ (encodeBytes [1] v2 now ++
          encodeBytes [2] va now),
          16 + 1 + v1.length + (16 + 1 + v2.length) + (16 + 1 + va.length), false, false⟩,
        [([1], ⟨1, 16 + 1 + v1.length, v2.length, now % 4294967296⟩),
         ([2], ⟨1, 16 + 1 + v1.length + (16 + 1 + v2.length), va.length,
            now % 4294967296⟩)], []⟩ := by
    rw [put_ok _ [2] va now [] rfl (by decide) (by simp [encodeBytes_length])
      (by simp [Log.MaxDataFileSize]; omega)]
    simp [Log.indexInsert]
  rw [hA3] at hs4
  have hA4 : (KV.Del (⟨⟨1, "./db", encodeBytes [1] v1 now ++ (encodeBytes [1] v2 now ++
      encodeBytes [2] va now),
      16 + 1 + v1.length + (16 + 1 + v2.length) + (16 + 1 + va.length), false, false⟩,
      [([1], ⟨1, 16 + 1 + v1.length, v2.length, now % 4294967296⟩),
       ([2], ⟨1, 16 + 1 + v1.length + (16 + 1 + v2.length), va.length,
          now % 4294967296⟩)], []⟩ : KV.Store) [2] now).1 =
      ⟨⟨1, "./db", encodeBytes [1] v1 now ++ (encodeBytes [1] v2 now ++
          (encodeBytes [2] va now ++ encodeBytes [2] [] now)),
          16 + 1 + v1.length + (16 + 1 + v2.length) + (16 + 1 + va.length) + (16 + 1),
          false, false⟩,
        [([1], ⟨1, 16 + 1 + v1.length, v2.length, now % 4294967296⟩)], []⟩ := by
    rw [del_ok _ [2] now ⟨1, 16 + 1 + v1.length + (16 + 1 + v2.length), va.length,
        now % 4294967296⟩
      (by simp [Log.indexLookup, List.lookup]) rfl (by decide)
      (by simp [encodeBytes_length]; omega)
      (by simp [Log.MaxDataFileSize]; omega)]
    simp [Log.indexErase]
  rw [hA4] at hs4
  have hA5 : (KV.Put (⟨⟨1, "./db", encodeBytes [1] v1 now ++ (encodeBytes [1] v2 now ++
      (encodeBytes [2] va now ++ encodeBytes [2] [] now)),
      16 + 1 + v1.length + (16 + 1 + v2.length) + (16 + 1 + va.length) + (16 + 1),
      false, false⟩,
      [([1], ⟨1, 16 + 1 + v1.length, v2.length, now % 4294967296⟩)], []⟩ : KV.Store)
      [3] v3 now []).1 =
      ⟨⟨1, "./db", encodeBytes [1] v1 now ++ (encodeBytes [1] v2 now ++
          (encodeBytes [2] va now ++ (encodeBytes [2] [] now ++ encodeBytes [3] v3 now))),
          16 + 1 + v1.length + (16 + 1 + v2.length) + (16 + 1 + va.length) + (16 + 1) +
            (16 + 1 + v3.length), false, false⟩,
        [([1], ⟨1, 16 + 1 + v1.length, v2.length, now % 4294967296⟩),
         ([3], ⟨1, 16 + 1 + v1.length + (16 + 1 + v2.length) + (16 + 1 + va.length) +
            (16 + 1), v3.length, now % 4294967296⟩)], []⟩ := by
    rw [put_ok _ [3] v3 now [] rfl (by decide) (by simp [encodeBytes_length]; omega)
      (by simp [Log.MaxDataFileSize]; omega)]
    simp [Log.indexInsert]
  rw [hA5] at hs4
  subst hs4
  have hd2 := decode_at (encodeBytes [1] v1 now) (encodeBytes [2] va now ++
      (encodeBytes [2] [] now ++ encodeBytes [3] v3 now)) [1] v2 now
    (by decide) (by simp; omega)
  have hpre2 : (encodeBytes [1] v1 now).length = 16 + 1 + v1.length := by
    simp [encodeBytes_length]
  rw [hpre2] at hd2
  have hd5 := decode_at (encodeBytes [1] v1 now ++ (encodeBytes [1] v2 now ++
      (encodeBytes [2] va now ++ encodeBytes [2] [] now))) [] [3] v3 now
    (by decide) (by simp; omega)
  have hpre5 : (encodeBytes [1] v1 now ++ (encodeBytes [1] v2 now ++
      (encodeBytes [2] va now ++ encodeBytes [2] [] now))).length =
      16 + 1 + v1.length + (16 + 1 + v2.length) + (16 + 1 + va.length) + (16 + 1) := by
    simp [encodeBytes_length]
    omega
  rw [hpre5] at hd5
  simp only [List.append_assoc, List.append_nil] at hd5
  have he2 : Record.Encode [1] v2 now = some (encodeBytes [1] v2 now) :=
    encode_sane _ _ _ (by decide) (by simp; omega)
  have he5 : Record.Encode [3] v3 now = some (encodeBytes [3] v3 now) :=
    encode_sane _ _ _ (by decide) (by simp; omega)
  have hm2 : v2.length % 4294967296 = v2.length := Nat.mod_eq_of_lt (by omega)
  have hm5 : v3.length % 4294967296 = v3.length := Nat.mod_eq_of_lt (by omega)
  refine ⟨⟨⟨1, "./db", encodeBytes [1] v2 now ++ encodeBytes [3] v3 now,
      (encodeBytes [1] v2 now ++ encodeBytes [3] v3 now).length, false, false⟩,
      [([1], ⟨1, 0, v2.length, now % 4294967296⟩),
       ([3], ⟨1, 16 + 1 + v2.length, v3.length, now % 4294967296⟩)], []⟩, ?_, ?_, ?_, ?_,
    rfl, rfl, rfl, rfl, by simp [encodeBytes_length], rfl⟩
  · simp only [KV.Compact, KV.compactGo, KV.storeReadPos, Log.ReadAt, List.lookup,
      Bool.false_eq_true, if_false, hd2, hd5, he2, he5, hm2, hm5, List.nil_append,
      List.length_nil, Log.indexInsert, List.filter_nil, List.filter_cons]
    simp [encodeBytes_length]
  · have hg1 := decode_at [] (encodeBytes [3] v3 now) [1] v2 now (by decide) (by simp; omega)
    simp only [List.nil_append, List.length_nil] at hg1
    simp [KV.Get, Log.indexLookup, List.lookup, Log.ReadAt, hg1]
  · simp [KV.Get, Log.indexLookup, List.lookup]
  · have hg3 := decode_at (encodeBytes [1] v2 now) [] [3] v3 now (by decide) (by simp; omega)
    rw [show (encodeBytes [1] v2 now).length = 16 + 1 + v2.length from by
      simp [encodeBytes_length]] at hg3
    simp only [List.append_nil] at hg3
    simp [KV.Get, Log.indexLookup, List.lookup, Log.ReadAt, hg3]


/-- Witness for C8 at concrete values v1 = [5], v2 = [6,6], va = [7],
v3 = [8,8,8]. -/
theorem c8_witness :
    ∃ s' : KV.Store,
      KV.Compact ((KV.Put (KV.Del (KV.Put (KV.Put (KV.Put
          (⟨⟨1, "./db", [], 0, false, false⟩, [], []⟩ : KV.Store)
          [1] [5] 1704067200 []).1 [1] [6, 6] 1704067200 []).1
          [2] [7] 1704067200 []).1 [2] 1704067200).1
          [3] [8, 8, 8] 1704067200 []).1) 1704067200 = .ok s' ∧
      KV.Get s' [1] = .ok [6, 6] ∧
      KV.Get s' [2] = .error .keyNotFound ∧
      KV.Get s' [3] = .ok [8, 8, 8] ∧
      s'.logs = [] ∧ s'.activeLog.readOnly = false ∧ s'.activeLog.closed = false ∧
      s'.activeLog.id = 1 ∧
      s'.activeLog.file.length = (16 + 1 + 2) + (16 + 1 + 3) ∧
      s'.activeLog.writePos = s'.activeLog.file.length := by
  have h := c8_compaction_preserves_live_data [5] [6, 6] [7] [8, 8, 8] 1704067200
    (by decide) (by decide) (by decide) (by decide) _ rfl
  simpa using h

end Kival
